import Mathlib

/-!
Shallow embedding of the weighted log-packet distributor
(src/distributor: models.py, config.py, distributor.py, health_monitor.py,
main.py).

Modelling conventions:
* Python floats (analyzer weights, random draws) are modelled as exact
  rationals; the algorithms under study only add and compare them.
* The random draw of each selection and the network outcome of each HTTP
  call are inputs supplied by an environment, so the asynchronous code
  becomes a pure function of state and environment.
* Python dicts keyed by analyzer name are modelled as association lists;
  an in-place `d[k] += v` becomes an update of the first entry with that
  key (the keys are initialised for every configured analyzer, see
  `initStats`).
-/

namespace LogDist

attribute [local semireducible] Rat.add Rat.mul Rat.inv Rat.sub Rat.ofScientific

/-- Analyzer record (models.py, class Analyzer): name, url, weight and a
mutable health flag defaulting to true. -/
structure Analyzer where
  name : String
  url : String
  weight : ℚ
  is_healthy : Bool := true
deriving DecidableEq, Repr

/-- Pydantic validation of an Analyzer (models.py lines 119-122): the
weight field carries ge=0.0 and le=1.0, so construction fails outside
[0, 1]; is_healthy defaults to true. -/
def Analyzer.validate (name url : String) (weight : ℚ) : Option Analyzer :=
  if 0 ≤ weight ∧ weight ≤ 1 then
    some { name := name, url := url, weight := weight, is_healthy := true }
  else
    none

/-- One log message (models.py, class LogMessage); the distributor never
reads the fields, only the count of messages in a packet matters. -/
structure LogMessage where
  source : String
  message : String
deriving DecidableEq, Repr

/-- A log packet (models.py, class LogPacket). -/
structure LogPacket where
  packet_id : String
  agent_id : String
  messages : List LogMessage
deriving DecidableEq, Repr

/-- Statistics record (models.py, class DistributorStats); the two dicts
are association lists from analyzer name to count. -/
structure DistributorStats where
  total_packets_received : Nat := 0
  total_messages_received : Nat := 0
  packets_per_analyzer : List (String × Nat) := []
  messages_per_analyzer : List (String × Nat) := []
  failed_sends : Nat := 0
deriving DecidableEq, Repr

/-- Add d to the value of the first entry with key k (the model of the
dict update `m[k] += d`; the callers only use keys that are present). -/
def bumpKey (m : List (String × Nat)) (k : String) (d : Nat) : List (String × Nat) :=
  match m with
  | [] => []
  | (q, v) :: rest => if q = k then (q, v + d) :: rest else (q, v) :: bumpKey rest k d

/-- Value of the first entry with key k, if any (dict lookup). -/
def lookupKey (m : List (String × Nat)) (k : String) : Option Nat :=
  match m with
  | [] => none
  | (q, v) :: rest => if q = k then some v else lookupKey rest k

/-- Statistics as initialised by LogDistributor.__init__ (distributor.py
lines 56-61): a fresh DistributorStats with a zero entry per analyzer. -/
def initStats (analyzers : List Analyzer) : DistributorStats :=
  { total_packets_received := 0
    total_messages_received := 0
    packets_per_analyzer := analyzers.map (fun a => (a.name, 0))
    messages_per_analyzer := analyzers.map (fun a => (a.name, 0))
    failed_sends := 0 }

/-- The selection loop of _select_analyzer (distributor.py lines 133-138):
walk the healthy analyzers accumulating weights, return the first one
whose cumulative weight strictly exceeds the draw. -/
def selectLoop (rand : ℚ) : List Analyzer → ℚ → Option Analyzer
  | [], _ => none
  | a :: rest, cumulative_weight =>
    if rand < cumulative_weight + a.weight then some a
    else selectLoop rand rest (cumulative_weight + a.weight)

/-- Model of _select_analyzer (distributor.py lines 89-141) with the random draw
rand passed in as a parameter: filter the healthy analyzers, return none
when there are none or their total weight is 0, otherwise run the
weighted walk and fall back to the last healthy analyzer. -/
def selectAnalyzer (analyzers : List Analyzer) (rand : ℚ) : Option Analyzer :=
  let healthy_analyzers := analyzers.filter (fun a => a.is_healthy)
  if healthy_analyzers.isEmpty then none
  else
    let total_weight := (healthy_analyzers.map (fun a => a.weight)).sum
    if total_weight = 0 then none
    else
      match selectLoop rand healthy_analyzers 0 with
      | some a => some a
      | none => healthy_analyzers.getLast?

/-- Cumulative weight of the healthy sequence H up to and including
position i (the prefix sum of spec §4.3 step 5). -/
def cumWeight (H : List Analyzer) (i : Nat) : ℚ :=
  ((H.take (i + 1)).map Analyzer.weight).sum

/-- Selector written from the spec's words (§4.3): H is the healthy
subsequence in configured order; empty H or zero total weight gives
NoAnalyzerAvailable; otherwise the result is the element at the first
index i with r < cumWeight H i, else the last element of H. Stated with
index search over prefix sums so that it is structurally independent of
the source's accumulator loop. -/
def selectAnalyzerSpec (analyzers : List Analyzer) (r : ℚ) : Option Analyzer :=
  let H := analyzers.filter (fun a => a.is_healthy)
  if H.isEmpty then none
  else if (H.map (fun a => a.weight)).sum = 0 then none
  else
    match (List.range H.length).find? (fun i => decide (r < cumWeight H i)) with
    | some i => H[i]?
    | none => H.getLast?

/-- Outcome of one POST to an analyzer, as classified by the except arms
of distribute (distributor.py lines 210-270): success (2xx, so
raise_for_status returned), httpx.TimeoutException, httpx.ConnectError,
httpx.HTTPStatusError carrying the response status code, or any other
exception. -/
inductive SendOutcome where
  | ok
  | timeout
  | connectError
  | httpStatus (code : Nat)
  | otherError
deriving DecidableEq, Repr

/-- Retry-eligible outcomes of one send attempt: everything except a
success and except an HTTP status error in [400, 500)
(distributor.py lines 224-270). -/
def retryEligible : SendOutcome → Bool
  | .ok => false
  | .timeout => true
  | .connectError => true
  | .httpStatus code => !(400 ≤ code && code < 500)
  | .otherError => true

/-- The attempt loop of distribute (distributor.py lines 199-276).
env gives, for each attempt index, the random draw used by
_select_analyzer and the outcome of the POST issued by
_send_to_analyzer. attemptsLeft counts the remaining iterations of
`for attempt in range(max_retries + 1)`; attempt is the current index.
Returns (success flag, updated stats, number of HTTP requests issued).
A request is issued exactly when a selection succeeded. Backoff sleeps
are irrelevant to state and are not modelled. -/
def distributeGo (analyzers : List Analyzer) (packet : LogPacket)
    (env : Nat → ℚ × SendOutcome) :
    Nat → Nat → DistributorStats → Nat → Bool × DistributorStats × Nat
  | _, 0, stats, requests =>
    (false, { stats with failed_sends := stats.failed_sends + 1 }, requests)
  | attempt, left + 1, stats, requests =>
    match selectAnalyzer analyzers (env attempt).1 with
    | none =>
      (false, { stats with failed_sends := stats.failed_sends + 1 }, requests)
    | some analyzer =>
      match (env attempt).2 with
      | .ok =>
        (true,
         { stats with
            total_packets_received := stats.total_packets_received + 1
            total_messages_received := stats.total_messages_received + packet.messages.length
            packets_per_analyzer := bumpKey stats.packets_per_analyzer analyzer.name 1
            messages_per_analyzer :=
              bumpKey stats.messages_per_analyzer analyzer.name packet.messages.length },
         requests + 1)
      | .httpStatus code =>
        if 400 ≤ code ∧ code < 500 then
          (false, { stats with failed_sends := stats.failed_sends + 1 }, requests + 1)
        else
          distributeGo analyzers packet env (attempt + 1) left stats (requests + 1)
      | _ =>
        distributeGo analyzers packet env (attempt + 1) left stats (requests + 1)

/-- distribute (distributor.py lines 172-276): run the attempt loop for
max_retries + 1 attempts starting from attempt 0 and 0 requests. -/
def distribute (analyzers : List Analyzer) (packet : LogPacket)
    (max_retries : Nat) (env : Nat → ℚ × SendOutcome)
    (stats : DistributorStats) : Bool × DistributorStats × Nat :=
  distributeGo analyzers packet env 0 (max_retries + 1) stats 0

/-- update_analyzer_health (distributor.py lines 278-301): set the
is_healthy flag of the first analyzer with the given name; every other
analyzer, and every other field, is untouched. -/
def update_analyzer_health : List Analyzer → String → Bool → List Analyzer
  | [], _, _ => []
  | a :: rest, analyzer_name, is_healthy =>
    if a.name = analyzer_name then { a with is_healthy := is_healthy } :: rest
    else a :: update_analyzer_health rest analyzer_name is_healthy

/-- Acknowledgement body returned by POST /ingest on success
(main.py lines 237-241). -/
structure IngestAck where
  status : String
  packet_id : String
  message : String
deriving DecidableEq, Repr

/-- Result of the ingress handler: a 202 acknowledgement, or the
HTTPException raised when the queue is full (main.py lines 243-250). -/
inductive IngestResult where
  | accepted (status_code : Nat) (body : IngestAck)
  | rejected (status_code : Nat) (detail : String)
deriving DecidableEq, Repr

/-- asyncio.Queue.full(): with a positive maxsize the queue is full when
it holds at least maxsize items; maxsize 0 means unbounded. -/
def queueFull (maxSize : Nat) (queue : List LogPacket) : Bool :=
  0 < maxSize && maxSize ≤ queue.length

/-- ingest_log_packet (main.py lines 203-250): put_nowait the packet; on
success return 202 with status, packet_id and a message naming the
message count; on asyncio.QueueFull leave the queue alone and raise
HTTPException 503. Returns (queue after the call, response). -/
def ingest_log_packet (maxSize : Nat) (queue : List LogPacket)
    (packet : LogPacket) : List LogPacket × IngestResult :=
  if queueFull maxSize queue then
    (queue, .rejected 503 "Queue is full, please retry later")
  else
    (queue ++ [packet],
     .accepted 202
       { status := "accepted"
         packet_id := packet.packet_id
         message := "Packet queued for distribution ("
           ++ toString packet.messages.length ++ " messages)" })

/-- Everything before the last slash of s, or all of s when it has no
slash: the model of the Python expression url.rsplit(1 slash)[0] in
health_monitor.py line 86. -/
def rsplitBase (s : String) : String :=
  match s.data.reverse.dropWhile (fun c => c ≠ '/') with
  | [] => s
  | _ :: rest => String.mk rest.reverse

/-- Health URL derivation (health_monitor.py lines 86-87): strip the
final path segment and append /health. -/
def healthUrlOf (url : String) : String :=
  rsplitBase url ++ "/health"

/-- Outcome of the GET issued by a health probe: a response with some
status code, httpx.TimeoutException, httpx.ConnectError, or any other
exception (health_monitor.py lines 91-113). -/
inductive ProbeResult where
  | response (status_code : Nat)
  | timeout
  | connectError
  | otherError
deriving DecidableEq, Repr

/-- Model of _check_analyzer_health (health_monitor.py lines 69-113) with the
network modelled as a map from URL to probe outcome: GET the health URL
derived from the analyzer's packet URL; healthy iff the status code is
200; every exception arm returns false. -/
def check_analyzer_health (net : String → ProbeResult)
    (analyzer : Analyzer) : Bool :=
  match net (healthUrlOf analyzer.url) with
  | .response code => code == 200
  | .timeout => false
  | .connectError => false
  | .otherError => false

/-- get_analyzers (config.py lines 32-71) with the four weight
environment overrides as parameters and the default URLs: build the four
Analyzer records through pydantic validation; compute whether the
weight-sum warning fires (sum outside [0.99, 1.01]); the warning never
prevents the list from being returned. none models the pydantic
ValidationError aborting startup. -/
def get_analyzers (w1 w2 w3 w4 : ℚ) : Option (List Analyzer × Bool) :=
  match Analyzer.validate "analyzer-1" "http://analyzer-1:8001/analyze" w1,
        Analyzer.validate "analyzer-2" "http://analyzer-2:8002/analyze" w2,
        Analyzer.validate "analyzer-3" "http://analyzer-3:8003/analyze" w3,
        Analyzer.validate "analyzer-4" "http://analyzer-4:8004/analyze" w4 with
  | some a1, some a2, some a3, some a4 =>
    let total_weight := ([a1, a2, a3, a4].map (fun a => a.weight)).sum
    some ([a1, a2, a3, a4],
          if 0.99 ≤ total_weight ∧ total_weight ≤ 1.01 then false else true)
  | _, _, _, _ => none

/-- States (analyzer list, statistics) of one LogDistributor reachable
from initialisation by the operations that mutate shared state:
distribute calls (with any packet, retry bound and environment) and
health updates from the monitor. -/
inductive Reachable : List Analyzer → DistributorStats → Prop where
  | boot (analyzers : List Analyzer) :
      Reachable analyzers (initStats analyzers)
  | dist (analyzers : List Analyzer) (stats : DistributorStats)
      (packet : LogPacket) (max_retries : Nat) (env : Nat → ℚ × SendOutcome)
      (h : Reachable analyzers stats) :
      Reachable analyzers (distribute analyzers packet max_retries env stats).2.1
  | health (analyzers : List Analyzer) (stats : DistributorStats)
      (analyzer_name : String) (is_healthy : Bool)
      (h : Reachable analyzers stats) :
      Reachable (update_analyzer_health analyzers analyzer_name is_healthy) stats

/-- Sum of the per-analyzer counts of an association list (the model of
sum of dict values). -/
def sumVals (m : List (String × Nat)) : Nat :=
  (m.map (fun e => e.2)).sum

/-- A concrete analyzer used by concrete instantiations (the first
configured analyzer of config.py with its default weight 0.4). -/
def demoAnalyzer : Analyzer :=
  { name := "analyzer-1", url := "http://analyzer-1:8001/analyze", weight := 2/5 }

/-- A concrete one-message packet used by concrete instantiations. -/
def demoPacket : LogPacket :=
  { packet_id := "packet-001", agent_id := "agent-1",
    messages := [{ source := "payment-service", message := "payment timeout" }] }

/-- An environment whose every attempt draws 0 and gets HTTP 400 back. -/
def env400 : Nat → ℚ × SendOutcome := fun _ => (0, SendOutcome.httpStatus 400)

/-- An environment whose every attempt draws 0 and gets HTTP 500 back. -/
def env500 : Nat → ℚ × SendOutcome := fun _ => (0, SendOutcome.httpStatus 500)

/-- An environment whose every attempt draws 0 and succeeds. -/
def envOk : Nat → ℚ × SendOutcome := fun _ => (0, SendOutcome.ok)

/-! ### Helper lemmas -/

theorem selectLoop_shift (H : List Analyzer) : ∀ r c : ℚ,
    selectLoop r H c = selectLoop (r - c) H 0 := by
  induction H with
  | nil => intro r c; rfl
  | cons a rest ih =>
    intro r c
    simp only [selectLoop]
    by_cases h : r < c + a.weight
    · rw [if_pos h, if_pos (by linarith)]
    · rw [if_neg h, if_neg (by intro hc; exact h (by linarith))]
      rw [ih r (c + a.weight), ih (r - c) (0 + a.weight)]
      have harg : r - (c + a.weight) = r - c - (0 + a.weight) := by ring
      rw [harg]

theorem cumWeight_cons_zero (a : Analyzer) (rest : List Analyzer) :
    cumWeight (a :: rest) 0 = a.weight := by
  simp [cumWeight]

theorem cumWeight_cons_succ (a : Analyzer) (rest : List Analyzer) (i : Nat) :
    cumWeight (a :: rest) (i + 1) = a.weight + cumWeight rest i := by
  simp [cumWeight, List.take_succ_cons]

theorem selectLoop_zero_eq_find (H : List Analyzer) : ∀ r : ℚ,
    selectLoop r H 0 =
      ((List.range H.length).find? (fun i => decide (r < cumWeight H i))).bind
        (fun i => H[i]?) := by
  induction H with
  | nil => intro r; rfl
  | cons a rest ih =>
    intro r
    have hrange : List.range (a :: rest).length
        = 0 :: (List.range rest.length).map Nat.succ := by
      simp [List.range_succ_eq_map]
    rw [hrange]
    simp only [List.find?_cons]
    by_cases h : r < a.weight
    · have hp : decide (r < cumWeight (a :: rest) 0) = true := by
        rw [cumWeight_cons_zero]; exact decide_eq_true h
      rw [hp]
      simp only [selectLoop, Option.bind]
      rw [if_pos (by simpa using h)]
      simp
    · have hp : decide (r < cumWeight (a :: rest) 0) = false := by
        rw [cumWeight_cons_zero]; exact decide_eq_false h
      rw [hp]
      have hfun : (fun i => decide (r < cumWeight (a :: rest) i)) ∘ Nat.succ
          = fun i => decide (r - a.weight < cumWeight rest i) := by
        funext i
        simp only [Function.comp]
        rw [cumWeight_cons_succ]
        exact decide_eq_decide.mpr (by constructor <;> intro <;> linarith)
      rw [List.find?_map, hfun]
      simp only [selectLoop]
      rw [if_neg (by simpa using h), selectLoop_shift]
      have harg : r - (0 + a.weight) = r - a.weight := by ring
      rw [harg, ih (r - a.weight)]
      cases hfind : (List.range rest.length).find?
          (fun i => decide (r - a.weight < cumWeight rest i)) with
      | none => rfl
      | some i => simp

theorem selectAnalyzer_mem_healthy (l : List Analyzer) (r : ℚ) (a : Analyzer)
    (h : selectAnalyzer l r = some a) :
    a ∈ l.filter (fun x => x.is_healthy) := by
  classical
  unfold selectAnalyzer at h
  set H := l.filter (fun x => x.is_healthy) with hH
  by_cases hemp : H.isEmpty
  · simp [hemp] at h
  · rw [if_neg hemp] at h
    by_cases hw : (H.map (fun x => x.weight)).sum = 0
    · simp [hw] at h
    · rw [if_neg hw] at h
      have hloop : ∀ (G : List Analyzer) (r c : ℚ) (b : Analyzer),
          selectLoop r G c = some b → b ∈ G := by
        intro G
        induction G with
        | nil => intro r c b hb; simp [selectLoop] at hb
        | cons x rest ih =>
          intro r c b hb
          simp only [selectLoop] at hb
          by_cases hx : r < c + x.weight
          · rw [if_pos hx] at hb
            simp at hb
            simp [hb]
          · rw [if_neg hx] at hb
            exact List.mem_cons_of_mem x (ih r (c + x.weight) b hb)
      cases hsel : selectLoop r H 0 with
      | some b =>
        rw [hsel] at h
        cases h
        exact hloop H r 0 a hsel
      | none =>
        rw [hsel] at h
        exact List.mem_of_getLast?_eq_some h

/-! ### Claim C1 -/

/-- C1. The selector implements the specified weighted-random algorithm:
for every analyzer list and every draw r, _select_analyzer returns none
when the healthy subsequence is empty or its total weight is zero, and
otherwise returns the element of the healthy subsequence H at the first
index i with r < cumWeight H i — the first h with r strictly below the
cumulative weight up to and including h — falling back to the last
element of H when no index qualifies. Stated as equality with
selectAnalyzerSpec, the selector transcribed from the spec's words over
prefix sums. -/
theorem selectAnalyzer_eq_selectAnalyzerSpec (l : List Analyzer) (r : ℚ) :
    selectAnalyzer l r = selectAnalyzerSpec l r := by
  unfold selectAnalyzer selectAnalyzerSpec
  set H := l.filter (fun x => x.is_healthy) with hH
  by_cases hemp : H.isEmpty
  · simp [hemp]
  · rw [if_neg hemp, if_neg hemp]
    by_cases hw : (H.map (fun x => x.weight)).sum = 0
    · simp [hw]
    · rw [if_neg hw, if_neg hw]
      rw [selectLoop_zero_eq_find]
      cases hfind : (List.range H.length).find?
          (fun i => decide (r < cumWeight H i)) with
      | none => rfl
      | some i =>
        have hi : i < H.length := by
          have := List.mem_of_find?_eq_some hfind
          simpa [List.mem_range] using this
        have hsome : H[i]? = some (H.get ⟨i, hi⟩) := by
          simp [List.getElem?_eq_getElem hi]
        rw [Option.some_bind, hsome]
        simp [hsome]

/-! ### Claim C2 -/

/-- C2. An unhealthy analyzer is never selected: whenever an analyzer's
is_healthy flag is false at the time _select_analyzer runs, the selector
cannot return it (first conjunct: any returned analyzer has the flag set,
so a flag-false record is never the result). Moreover
update_analyzer_health is the only operation that touches the analyzer
list, and it changes nothing but is_healthy flags: the name, url and
weight projections of the list are preserved (second conjunct);
distribute and the selector take the list as a read-only input in this
development, mirroring the source, which never assigns analyzer fields
outside update_analyzer_health. -/
theorem unhealthy_never_selected :
    (∀ (l : List Analyzer) (r : ℚ) (a : Analyzer),
        a.is_healthy = false → selectAnalyzer l r ≠ some a)
    ∧ (∀ (l : List Analyzer) (analyzer_name : String) (b : Bool),
        (update_analyzer_health l analyzer_name b).map
            (fun a => (a.name, a.url, a.weight))
          = l.map (fun a => (a.name, a.url, a.weight))) := by
  constructor
  · intro l r a hflag hsel
    have hmem := selectAnalyzer_mem_healthy l r a hsel
    have := (List.mem_filter.mp hmem).2
    rw [hflag] at this
    exact Bool.false_ne_true this
  · intro l analyzer_name b
    induction l with
    | nil => rfl
    | cons a rest ih =>
      simp only [update_analyzer_health]
      by_cases hn : a.name = analyzer_name
      · rw [if_pos hn]
        simp
      · rw [if_neg hn]
        simp [ih]

/-- C2 witness: a concrete unhealthy analyzer is not returned by a
concrete selection over a list containing it. -/
theorem unhealthy_never_selected_witness :
    selectAnalyzer
        [{ name := "analyzer-2", url := "http://analyzer-2:8002/analyze",
           weight := 3/10, is_healthy := false }] 0
      ≠ some { name := "analyzer-2", url := "http://analyzer-2:8002/analyze",
               weight := 3/10, is_healthy := false } :=
  unhealthy_never_selected.1 _ 0 _ rfl

/-! ### Distribute helper lemmas -/

theorem distributeGo_shape (l : List Analyzer) (p : LogPacket)
    (env : Nat → ℚ × SendOutcome) :
    ∀ (left attempt : Nat) (s : DistributorStats) (req : Nat),
      ((distributeGo l p env attempt left s req).1 = true →
        ∃ a, a ∈ l.filter (fun x => x.is_healthy) ∧
          (distributeGo l p env attempt left s req).2.1
            = { s with
                total_packets_received := s.total_packets_received + 1
                total_messages_received :=
                  s.total_messages_received + p.messages.length
                packets_per_analyzer := bumpKey s.packets_per_analyzer a.name 1
                messages_per_analyzer :=
                  bumpKey s.messages_per_analyzer a.name p.messages.length })
      ∧ ((distributeGo l p env attempt left s req).1 = false →
        (distributeGo l p env attempt left s req).2.1
          = { s with failed_sends := s.failed_sends + 1 }) := by
  intro left
  induction left with
  | zero =>
    intro attempt s req
    exact ⟨fun h => by simp [distributeGo] at h, fun _ => rfl⟩
  | succ n ih =>
    intro attempt s req
    simp only [distributeGo]
    cases hsel : selectAnalyzer l (env attempt).1 with
    | none => exact ⟨fun h => by simp at h, fun _ => rfl⟩
    | some a =>
      have hmem : a ∈ l.filter (fun x => x.is_healthy) :=
        selectAnalyzer_mem_healthy l (env attempt).1 a hsel
      cases hout : (env attempt).2 with
      | ok => exact ⟨fun _ => ⟨a, hmem, rfl⟩, fun h => by simp at h⟩
      | timeout => exact ih (attempt + 1) s (req + 1)
      | connectError => exact ih (attempt + 1) s (req + 1)
      | otherError => exact ih (attempt + 1) s (req + 1)
      | httpStatus code =>
        dsimp only
        by_cases hc : 400 ≤ code ∧ code < 500
        · rw [if_pos hc]
          exact ⟨fun h => by simp at h, fun _ => rfl⟩
        · rw [if_neg hc]
          exact ih (attempt + 1) s (req + 1)

theorem distributeGo_all_eligible (l : List Analyzer) (p : LogPacket)
    (env : Nat → ℚ × SendOutcome) :
    ∀ (left attempt : Nat) (s : DistributorStats) (req : Nat),
      (∀ i, i < left → retryEligible (env (attempt + i)).2 = true
          ∧ (selectAnalyzer l (env (attempt + i)).1).isSome = true) →
      distributeGo l p env attempt left s req
        = (false, { s with failed_sends := s.failed_sends + 1 }, req + left) := by
  intro left
  induction left with
  | zero => intro attempt s req _; rfl
  | succ n ih =>
    intro attempt s req h
    have h0 := h 0 (Nat.succ_pos n)
    rw [Nat.add_zero] at h0
    simp only [distributeGo]
    cases hsel : selectAnalyzer l (env attempt).1 with
    | none => rw [hsel] at h0; simp at h0
    | some a =>
      have hrec : distributeGo l p env (attempt + 1) n s (req + 1)
          = (false, { s with failed_sends := s.failed_sends + 1 }, req + 1 + n) := by
        apply ih
        intro i hi
        have := h (i + 1) (by omega)
        have harg : attempt + (i + 1) = attempt + 1 + i := by omega
        rw [harg] at this
        exact this
      have hcount : req + 1 + n = req + (n + 1) := by omega
      cases hout : (env attempt).2 with
      | ok => rw [hout] at h0; simp [retryEligible] at h0
      | timeout => dsimp only; rw [hrec, hcount]
      | connectError => dsimp only; rw [hrec, hcount]
      | otherError => dsimp only; rw [hrec, hcount]
      | httpStatus code =>
        rw [hout] at h0
        have hc : ¬ (400 ≤ code ∧ code < 500) := by
          have h1 := h0.1
          simp [retryEligible] at h1
          omega
        dsimp only
        rw [if_neg hc, hrec, hcount]

theorem distribute_shape (l : List Analyzer) (p : LogPacket) (R : Nat)
    (env : Nat → ℚ × SendOutcome) (s : DistributorStats) :
    ((distribute l p R env s).1 = true →
      ∃ a, a ∈ l.filter (fun x => x.is_healthy) ∧
        (distribute l p R env s).2.1
          = { s with
              total_packets_received := s.total_packets_received + 1
              total_messages_received :=
                s.total_messages_received + p.messages.length
              packets_per_analyzer := bumpKey s.packets_per_analyzer a.name 1
              messages_per_analyzer :=
                bumpKey s.messages_per_analyzer a.name p.messages.length })
    ∧ ((distribute l p R env s).1 = false →
      (distribute l p R env s).2.1
        = { s with failed_sends := s.failed_sends + 1 }) :=
  distributeGo_shape l p env (R + 1) 0 s 0

/-! ### Claim C3 -/

/-- C3 counterexample: with one healthy analyzer and a downstream that
answers 400, distribute under max_retries = 2 increments failed_sends
(by 1) although the retry attempts were not exhausted — only 1 of the 3
permitted requests was issued — and a healthy analyzer was available at
selection time. So failed_sends is also incremented on the 4xx path,
not only on exhaustion or no-analyzer. -/
theorem failed_sends_incremented_on_4xx_without_exhaustion :
    (distribute [demoAnalyzer] demoPacket 2 env400
        (initStats [demoAnalyzer])).2.1.failed_sends
      = (initStats [demoAnalyzer]).failed_sends + 1
    ∧ (distribute [demoAnalyzer] demoPacket 2 env400
        (initStats [demoAnalyzer])).2.2 = 1
    ∧ (distribute [demoAnalyzer] demoPacket 2 env400
        (initStats [demoAnalyzer])).1 = false
    ∧ (selectAnalyzer [demoAnalyzer] (env400 0).1).isSome = true
    ∧ (1 : Nat) < 2 + 1 :=
  ⟨by decide, by decide, by decide, by decide, by omega⟩

/-- C3 (amended). failed_sends is incremented by exactly 1 precisely
when distribute returns False — which the code reaches on retry
exhaustion, on no healthy analyzer at selection time, or on a 4xx
status error — and is unchanged when distribute returns True. -/
theorem distribute_failed_sends (l : List Analyzer) (p : LogPacket)
    (R : Nat) (env : Nat → ℚ × SendOutcome) (s : DistributorStats) :
    (distribute l p R env s).2.1.failed_sends
      = s.failed_sends
        + (if (distribute l p R env s).1 = true then 0 else 1) := by
  cases h : (distribute l p R env s).1 with
  | false =>
    rw [(distribute_shape l p R env s).2 h]
    simp
  | true =>
    obtain ⟨a, _, heq⟩ := (distribute_shape l p R env s).1 h
    rw [heq]
    simp

/-! ### Claim C4 -/

/-- C4. When the first send attempt raises an HTTP status error with a
4xx code, distribute performs no further attempts regardless of the
remaining retries: it issues exactly one HTTP request, increments
failed_sends by exactly 1, and returns False. -/
theorem distribute_4xx_single_request (l : List Analyzer) (p : LogPacket)
    (R : Nat) (env : Nat → ℚ × SendOutcome) (s : DistributorStats)
    (code : Nat) (a : Analyzer)
    (hcode : 400 ≤ code) (hcode2 : code < 500)
    (hout : (env 0).2 = SendOutcome.httpStatus code)
    (hsel : selectAnalyzer l (env 0).1 = some a) :
    distribute l p R env s
      = (false, { s with failed_sends := s.failed_sends + 1 }, 1) := by
  unfold distribute
  simp only [distributeGo]
  rw [hsel]
  dsimp only
  rw [hout]
  dsimp only
  rw [if_pos ⟨hcode, hcode2⟩]

/-- C4 witness: a concrete run with 400 responses, max_retries = 2 and
one healthy analyzer issues exactly one request, bumps failed_sends to
1 and returns False. -/
theorem distribute_4xx_single_request_witness :
    distribute [demoAnalyzer] demoPacket 2 env400 (initStats [demoAnalyzer])
      = (false,
         { initStats [demoAnalyzer] with
            failed_sends := (initStats [demoAnalyzer]).failed_sends + 1 },
         1) :=
  distribute_4xx_single_request _ _ _ _ _ 400 demoAnalyzer
    (by omega) (by omega) rfl (by decide)

/-! ### Claim C5 -/

/-- C5. When every attempted send fails with a retry-eligible outcome
(5xx status, timeout, connect error, or any other exception) and a
healthy analyzer is selectable before each attempt, distribute with
max_retries = R performs exactly R + 1 send attempts (a fresh selection
before each), then increments failed_sends by exactly 1 and returns
False. -/
theorem distribute_retry_exhaustion (l : List Analyzer) (p : LogPacket)
    (R : Nat) (env : Nat → ℚ × SendOutcome) (s : DistributorStats)
    (h : ∀ i, i ≤ R → retryEligible (env i).2 = true
        ∧ (selectAnalyzer l (env i).1).isSome = true) :
    distribute l p R env s
      = (false, { s with failed_sends := s.failed_sends + 1 }, R + 1) := by
  unfold distribute
  have hall := distributeGo_all_eligible l p env (R + 1) 0 s 0 (by
    intro i hi
    have hz : 0 + i = i := by omega
    rw [hz]
    exact h i (by omega))
  simpa using hall

/-- C5 witness: with max_retries = 2 and a downstream that always
returns 500, exactly 3 requests are issued for the packet, failed_sends
rises by 1 and distribute returns False. -/
theorem distribute_retry_exhaustion_witness :
    distribute [demoAnalyzer] demoPacket 2 env500 (initStats [demoAnalyzer])
      = (false,
         { initStats [demoAnalyzer] with
            failed_sends := (initStats [demoAnalyzer]).failed_sends + 1 },
         2 + 1) :=
  distribute_retry_exhaustion _ _ _ _ _ (fun _ _ => ⟨rfl, rfl⟩)

/-! ### Association-list lemmas -/

theorem lookupKey_bumpKey (m : List (String × Nat)) (k q : String) (d : Nat) :
    lookupKey (bumpKey m k d) q
      = if q = k then (lookupKey m q).map (fun v => v + d)
        else lookupKey m q := by
  induction m with
  | nil =>
    by_cases h : q = k <;> simp [bumpKey, lookupKey, h]
  | cons e rest ih =>
    obtain ⟨ek, ev⟩ := e
    simp only [bumpKey, lookupKey]
    by_cases h1 : ek = k
    · rw [if_pos h1]
      simp only [lookupKey]
      by_cases h2 : ek = q
      · have hqk : q = k := by rw [← h2, h1]
        simp [h2, hqk]
      · have hqk : ¬ q = k := by
          intro hq
          exact h2 (by rw [h1, hq])
        simp [h2, hqk]
    · rw [if_neg h1]
      simp only [lookupKey]
      by_cases h2 : ek = q
      · have hqk : ¬ q = k := by
          intro hq
          exact h1 (by rw [h2, hq])
        simp [h2, hqk]
      · simp [h2, ih]

theorem sumVals_cons (e : String × Nat) (m : List (String × Nat)) :
    sumVals (e :: m) = e.2 + sumVals m := by
  simp [sumVals]

theorem sumVals_bumpKey (m : List (String × Nat)) (k : String) (d : Nat)
    (h : (lookupKey m k).isSome = true) :
    sumVals (bumpKey m k d) = sumVals m + d := by
  induction m with
  | nil => simp [lookupKey] at h
  | cons e rest ih =>
    obtain ⟨ek, ev⟩ := e
    simp only [bumpKey]
    by_cases h1 : ek = k
    · rw [if_pos h1, sumVals_cons, sumVals_cons]
      omega
    · rw [if_neg h1, sumVals_cons, sumVals_cons]
      simp only [lookupKey, if_neg h1] at h
      rw [ih h]
      omega

theorem lookupKey_init_map (l : List Analyzer) (a : Analyzer)
    (ha : a ∈ l) :
    lookupKey (l.map (fun x => (x.name, (0 : Nat)))) a.name = some 0 := by
  induction l with
  | nil => simp at ha
  | cons x rest ih =>
    simp only [List.map_cons, lookupKey]
    by_cases h : x.name = a.name
    · rw [if_pos h]
    · rw [if_neg h]
      rcases List.mem_cons.mp ha with heq | hmem
      · exact absurd (by rw [heq]) h
      · exact ih hmem

theorem sumVals_init_map (l : List Analyzer) :
    sumVals (l.map (fun x => (x.name, (0 : Nat)))) = 0 := by
  induction l with
  | nil => rfl
  | cons x rest ih =>
    simp only [List.map_cons, sumVals_cons, ih]

theorem mem_update_analyzer_health (l : List Analyzer) (nm : String)
    (b : Bool) (a : Analyzer) (h : a ∈ update_analyzer_health l nm b) :
    ∃ a₀ ∈ l, a₀.name = a.name := by
  induction l with
  | nil => simp [update_analyzer_health] at h
  | cons x rest ih =>
    simp only [update_analyzer_health] at h
    by_cases hx : x.name = nm
    · rw [if_pos hx] at h
      rcases List.mem_cons.mp h with heq | hmem
      · exact ⟨x, List.mem_cons_self x rest, by rw [heq]⟩
      · exact ⟨a, List.mem_cons_of_mem x hmem, rfl⟩
    · rw [if_neg hx] at h
      rcases List.mem_cons.mp h with heq | hmem
      · exact ⟨x, List.mem_cons_self x rest, by rw [heq]⟩
      · obtain ⟨a₀, ha₀, hname⟩ := ih hmem
        exact ⟨a₀, List.mem_cons_of_mem x ha₀, hname⟩

/-- The ledger invariant carried through every reachable state: each
configured analyzer's name is a key of the packets map, and the packet
total equals the sum of the per-analyzer packet counts. -/
theorem reachable_inv (an : List Analyzer) (s : DistributorStats)
    (h : Reachable an s) :
    (∀ a ∈ an, (lookupKey s.packets_per_analyzer a.name).isSome = true)
    ∧ s.total_packets_received = sumVals s.packets_per_analyzer := by
  induction h with
  | boot analyzers =>
    constructor
    · intro a ha
      rw [initStats]
      rw [lookupKey_init_map analyzers a ha]
      rfl
    · rw [initStats, sumVals_init_map]
  | dist analyzers stats packet R env hr ih =>
    cases hres : (distribute analyzers packet R env stats).1 with
    | false =>
      rw [(distribute_shape analyzers packet R env stats).2 hres]
      exact ⟨ih.1, ih.2⟩
    | true =>
      obtain ⟨a, hmem, heq⟩ :=
        (distribute_shape analyzers packet R env stats).1 hres
      rw [heq]
      have haan : a ∈ analyzers := (List.mem_filter.mp hmem).1
      have hkey := ih.1 a haan
      constructor
      · intro b hb
        show (lookupKey (bumpKey stats.packets_per_analyzer a.name 1) b.name).isSome
          = true
        rw [lookupKey_bumpKey]
        by_cases hq : b.name = a.name
        · rw [if_pos hq, hq]
          obtain ⟨v, hv⟩ := Option.isSome_iff_exists.mp hkey
          rw [hv]
          rfl
        · rw [if_neg hq]
          exact ih.1 b hb
      · show stats.total_packets_received + 1
          = sumVals (bumpKey stats.packets_per_analyzer a.name 1)
        rw [sumVals_bumpKey stats.packets_per_analyzer a.name 1 hkey, ih.2]
  | health analyzers stats nm b hr ih =>
    refine ⟨?_, ih.2⟩
    intro a ha
    obtain ⟨a₀, ha₀, hname⟩ := mem_update_analyzer_health analyzers nm b a ha
    rw [← hname]
    exact ih.1 a₀ ha₀

/-! ### Claim C6 -/

/-- C6. In every reachable state of the statistics ledger — initialised
by LogDistributor.__init__ with a zero entry for every configured
analyzer and updated only by distribute calls and health updates —
total_packets_received equals the sum of packets_per_analyzer over all
entries: the success path increments the total and exactly one
per-analyzer counter together, and failure paths change neither. -/
theorem total_packets_received_eq_sum (an : List Analyzer)
    (s : DistributorStats) (h : Reachable an s) :
    s.total_packets_received = sumVals s.packets_per_analyzer :=
  (reachable_inv an s h).2

/-- C6 witness: the invariant instantiated at a concrete reachable
state, obtained by one successful distribute call after boot. -/
theorem total_packets_received_eq_sum_witness :
    (distribute [demoAnalyzer] demoPacket 2 envOk
        (initStats [demoAnalyzer])).2.1.total_packets_received
      = sumVals (distribute [demoAnalyzer] demoPacket 2 envOk
          (initStats [demoAnalyzer])).2.1.packets_per_analyzer :=
  total_packets_received_eq_sum [demoAnalyzer] _
    (Reachable.dist [demoAnalyzer] (initStats [demoAnalyzer]) demoPacket 2 envOk
      (Reachable.boot [demoAnalyzer]))

/-! ### Claim C7 -/

/-- C7. The ingress handler performs a non-blocking enqueue that never
waits: when the queue is not full the packet is appended and the handler
returns 202 with an acknowledgement body carrying status, packet_id and
message; when the queue is full the queue is left unchanged — no
internal retry — and the handler raises 503. -/
theorem ingest_nonblocking (maxSize : Nat) (queue : List LogPacket)
    (packet : LogPacket) :
    (queueFull maxSize queue = false →
      ingest_log_packet maxSize queue packet
        = (queue ++ [packet],
           IngestResult.accepted 202
             { status := "accepted"
               packet_id := packet.packet_id
               message := "Packet queued for distribution ("
                 ++ toString packet.messages.length ++ " messages)" }))
    ∧ (queueFull maxSize queue = true →
      ingest_log_packet maxSize queue packet
        = (queue,
           IngestResult.rejected 503 "Queue is full, please retry later")) := by
  constructor
  · intro h
    simp [ingest_log_packet, h]
  · intro h
    simp [ingest_log_packet, h]

/-- C7 witness: with capacity 1, ingesting into an empty queue enqueues
and acknowledges with 202, and ingesting into a full queue leaves it
unchanged and answers 503. -/
theorem ingest_nonblocking_witness :
    ingest_log_packet 1 [] demoPacket
      = ([] ++ [demoPacket],
         IngestResult.accepted 202
           { status := "accepted"
             packet_id := demoPacket.packet_id
             message := "Packet queued for distribution ("
               ++ toString demoPacket.messages.length ++ " messages)" })
    ∧ ingest_log_packet 1 [demoPacket] demoPacket
      = ([demoPacket],
         IngestResult.rejected 503 "Queue is full, please retry later") :=
  ⟨(ingest_nonblocking 1 [] demoPacket).1 rfl,
   (ingest_nonblocking 1 [demoPacket] demoPacket).2 rfl⟩

/-! ### Claim C8 -/

theorem dropWhile_append_of_all {α : Type} (p : α → Bool) (l₁ l₂ : List α)
    (h : ∀ c ∈ l₁, p c = true) :
    (l₁ ++ l₂).dropWhile p = l₂.dropWhile p := by
  induction l₁ with
  | nil => rfl
  | cons x rest ih =>
    rw [List.cons_append, List.dropWhile_cons,
        h x (List.mem_cons_self x rest)]
    exact ih (fun c hc => h c (List.mem_cons_of_mem x hc))

theorem rsplitBase_append (base seg : String)
    (hseg : ∀ c ∈ seg.data, c ≠ '/') :
    rsplitBase (base ++ "/" ++ seg) = base := by
  unfold rsplitBase
  have hdata : (base ++ "/" ++ seg).data = (base.data ++ ['/']) ++ seg.data := by
    rw [String.data_append, String.data_append]
  rw [hdata]
  have hrev : ((base.data ++ ['/']) ++ seg.data).reverse
      = seg.data.reverse ++ ('/' :: base.data.reverse) := by
    simp
  rw [hrev]
  rw [dropWhile_append_of_all _ seg.data.reverse ('/' :: base.data.reverse)
    (fun c hc => decide_eq_true (hseg c (List.mem_reverse.mp hc)))]
  rw [List.dropWhile_cons]
  rw [if_neg (by simp)]
  dsimp only
  rw [List.reverse_reverse]

/-- C8. A single health probe classifies an analyzer as healthy exactly
when the GET to its derived health URL returns status 200; any other
status, timeout, connect error or other exception yields unhealthy
(first conjunct, over an arbitrary network); and the health URL is
obtained from the packet URL by stripping the final path segment —
any slash-free suffix — and appending /health (second conjunct). -/
theorem health_probe_classification :
    (∀ (net : String → ProbeResult) (a : Analyzer),
        check_analyzer_health net a = true
          ↔ net (healthUrlOf a.url) = ProbeResult.response 200)
    ∧ (∀ base seg : String, (∀ c ∈ seg.data, c ≠ '/') →
        healthUrlOf (base ++ "/" ++ seg) = base ++ "/health") := by
  constructor
  · intro net a
    cases hnet : net (healthUrlOf a.url) with
    | response code => simp [check_analyzer_health, hnet]
    | timeout => simp [check_analyzer_health, hnet]
    | connectError => simp [check_analyzer_health, hnet]
    | otherError => simp [check_analyzer_health, hnet]
  · intro base seg hseg
    unfold healthUrlOf
    rw [rsplitBase_append base seg hseg]

/-- C8 witness: the spec's own example URL derivation, and a concrete
200 probe classified healthy. -/
theorem health_probe_classification_witness :
    healthUrlOf ("http://host:8001" ++ "/" ++ "analyze")
      = "http://host:8001" ++ "/health"
    ∧ check_analyzer_health (fun _ => ProbeResult.response 200) demoAnalyzer
      = true :=
  ⟨health_probe_classification.2 "http://host:8001" "analyze" (by decide),
   (health_probe_classification.1 (fun _ => ProbeResult.response 200)
      demoAnalyzer).mpr rfl⟩

/-! ### Claim C9 -/

/-- C9 counterexample: the weight 3/2 is non-negative, yet constructing
the analyzer entry fails pydantic validation, because the weight field
carries le=1.0: construction does not succeed for every non-negative
weight. -/
theorem weight_above_one_fails_validation :
    (0 : ℚ) ≤ mkRat 3 2
    ∧ Analyzer.validate "analyzer-1" "http://analyzer-1:8001/analyze"
        (mkRat 3 2) = none := by
  exact ⟨by decide, by decide⟩

/-- C9 (amended). Constructing an analyzer entry succeeds exactly for
weights in [0, 1] — a weight above 1.0 (or below 0) is rejected by the
model validation — and for any four weights inside [0, 1] startup never
aborts: get_analyzers returns the list even when the weight sum lies
outside [0.99, 1.01], in which case only the warning flag is set. -/
theorem analyzer_weight_validation :
    (∀ (name url : String) (w : ℚ),
        (Analyzer.validate name url w).isSome = true ↔ 0 ≤ w ∧ w ≤ 1)
    ∧ (∀ w1 w2 w3 w4 : ℚ,
        0 ≤ w1 → w1 ≤ 1 → 0 ≤ w2 → w2 ≤ 1 →
        0 ≤ w3 → w3 ≤ 1 → 0 ≤ w4 → w4 ≤ 1 →
        (get_analyzers w1 w2 w3 w4).isSome = true) := by
  constructor
  · intro name url w
    unfold Analyzer.validate
    by_cases h : 0 ≤ w ∧ w ≤ 1
    · simp [h]
    · simp [h]
  · intro w1 w2 w3 w4 h10 h11 h20 h21 h30 h31 h40 h41
    unfold get_analyzers Analyzer.validate
    rw [if_pos ⟨h10, h11⟩, if_pos ⟨h20, h21⟩, if_pos ⟨h30, h31⟩,
        if_pos ⟨h40, h41⟩]
    rfl

/-- C9 witness: all four weights equal to 1 are individually valid, the
sum 4 is far outside [0.99, 1.01], and startup still succeeds. -/
theorem analyzer_weight_validation_witness :
    (get_analyzers 1 1 1 1).isSome = true :=
  analyzer_weight_validation.2 1 1 1 1 (by norm_num) (by norm_num)
    (by norm_num) (by norm_num) (by norm_num) (by norm_num)
    (by norm_num) (by norm_num)

/-! ### Claim C10 -/

/-- C10. Frame effect of distribute on the statistics: when it returns
True, failed_sends is unchanged, the packet and message totals grow by
1 and by the packet's message count, and exactly one analyzer's
per-analyzer counters — those of the selected healthy analyzer — are
incremented by 1 and by the message count, every other key reading
unchanged; when it returns False, failed_sends grows by exactly 1 and
every other field of the statistics is unchanged. The analyzer list is
a read-only input of distribute in this development, as in the source,
which never assigns a health flag inside distribute. -/
theorem distribute_frame (l : List Analyzer) (p : LogPacket) (R : Nat)
    (env : Nat → ℚ × SendOutcome) (s : DistributorStats) :
    ((distribute l p R env s).1 = true →
      ∃ a, a ∈ l ∧ a.is_healthy = true
        ∧ (distribute l p R env s).2.1.failed_sends = s.failed_sends
        ∧ (distribute l p R env s).2.1.total_packets_received
            = s.total_packets_received + 1
        ∧ (distribute l p R env s).2.1.total_messages_received
            = s.total_messages_received + p.messages.length
        ∧ (∀ k, lookupKey (distribute l p R env s).2.1.packets_per_analyzer k
            = if k = a.name
              then (lookupKey s.packets_per_analyzer k).map (fun v => v + 1)
              else lookupKey s.packets_per_analyzer k)
        ∧ (∀ k, lookupKey (distribute l p R env s).2.1.messages_per_analyzer k
            = if k = a.name
              then (lookupKey s.messages_per_analyzer k).map
                (fun v => v + p.messages.length)
              else lookupKey s.messages_per_analyzer k))
    ∧ ((distribute l p R env s).1 = false →
      (distribute l p R env s).2.1
        = { s with failed_sends := s.failed_sends + 1 }) := by
  constructor
  · intro h
    obtain ⟨a, hmem, heq⟩ := (distribute_shape l p R env s).1 h
    have haan := (List.mem_filter.mp hmem).1
    have hhealthy : a.is_healthy = true := by
      simpa using (List.mem_filter.mp hmem).2
    refine ⟨a, haan, hhealthy, ?_, ?_, ?_, ?_, ?_⟩
    · rw [heq]
    · rw [heq]
    · rw [heq]
    · intro k
      rw [heq]
      exact lookupKey_bumpKey s.packets_per_analyzer a.name k 1
    · intro k
      rw [heq]
      exact lookupKey_bumpKey s.messages_per_analyzer a.name k p.messages.length
  · exact (distribute_shape l p R env s).2

/-- C10 witness: the success branch instantiated on a concrete run in
which the single healthy analyzer accepts the packet. -/
theorem distribute_frame_witness :
    ∃ a, a ∈ [demoAnalyzer] ∧ a.is_healthy = true
      ∧ (distribute [demoAnalyzer] demoPacket 2 envOk
          (initStats [demoAnalyzer])).2.1.failed_sends
          = (initStats [demoAnalyzer]).failed_sends
      ∧ (distribute [demoAnalyzer] demoPacket 2 envOk
          (initStats [demoAnalyzer])).2.1.total_packets_received
          = (initStats [demoAnalyzer]).total_packets_received + 1
      ∧ (distribute [demoAnalyzer] demoPacket 2 envOk
          (initStats [demoAnalyzer])).2.1.total_messages_received
          = (initStats [demoAnalyzer]).total_messages_received
            + demoPacket.messages.length
      ∧ (∀ k, lookupKey (distribute [demoAnalyzer] demoPacket 2 envOk
            (initStats [demoAnalyzer])).2.1.packets_per_analyzer k
          = if k = a.name
            then (lookupKey (initStats [demoAnalyzer]).packets_per_analyzer k).map
              (fun v => v + 1)
            else lookupKey (initStats [demoAnalyzer]).packets_per_analyzer k)
      ∧ (∀ k, lookupKey (distribute [demoAnalyzer] demoPacket 2 envOk
            (initStats [demoAnalyzer])).2.1.messages_per_analyzer k
          = if k = a.name
            then (lookupKey (initStats [demoAnalyzer]).messages_per_analyzer k).map
              (fun v => v + demoPacket.messages.length)
            else lookupKey (initStats [demoAnalyzer]).messages_per_analyzer k) :=
  (distribute_frame [demoAnalyzer] demoPacket 2 envOk
    (initStats [demoAnalyzer])).1 rfl

end LogDist
